import Mathlib

/-!
Verification development for the decode/validate pipeline of
`src/protohell.py` (transparency-log release extraction).

The embedding models bytes as `Nat` values (real bytes are `< 256`) and
byte strings as `List Nat`.  Python exceptions are modelled by the
`Except PyErr` monad: every place the script can raise becomes an
explicit `.error`.  `io.BytesIO.read(n)` clamps to the available bytes
(it never raises), while `stream.read(1)[0]` raises `IndexError` on an
exhausted stream; both behaviours are reproduced exactly.
-/

/-- Failure kinds of the Python script.  `hashMismatch` is the
`AssertionError("Hash mismatch")` raised by `get_releases_from_leaves`;
`assertionFailed` is any bare `assert`; `asn1Error` is `asn1.Error`
raised inside the `asn1` decoder (premature end of input, syntax
error, entering a non-constructed tag); `typeError` is the unpack
failure when `asn1.Decoder.read()` returns `None` at end of input;
`attributeError` is `tag.nr` on the `None` returned by `peek()` at end
of input; `indexError` is `b""[0]`; `unicodeDecodeError` is a strict
UTF-8 decode failure. -/
inductive PyErr where
  | indexError
  | unicodeDecodeError
  | typeError
  | attributeError
  | asn1Error
  | assertionFailed
  | hashMismatch
deriving DecidableEq, Repr

/-- Python's `int.from_bytes(bytes, "big")`: big-endian interpretation of a byte
string; the empty string gives `0`. -/
def fromBytesBE (l : List Nat) : Nat :=
  l.foldl (fun acc b => acc * 256 + b) 0

/-- Fixed-width big-endian byte encoding of `v` (`v.to_bytes(n, "big")`,
truncating to the low `8*n` bits). -/
def toBytesBEfixed : Nat → Nat → List Nat
  | 0, _ => []
  | n + 1, v => toBytesBEfixed n (v / 256) ++ [v % 256]

/-- Minimal (no leading zero byte) big-endian byte encoding of a natural
number; `0` encodes to the empty string. -/
def natToBytesBE (v : Nat) : List Nat :=
  if h : v = 0 then [] else natToBytesBE (v / 256) ++ [v % 256]
decreasing_by exact Nat.div_lt_self (Nat.pos_of_ne_zero h) (by omega)

/-! ### SHA-256 (`hashlib.sha256(...).digest()`) -/

/-- Truncation to 32 bits. -/
def m32 (x : Nat) : Nat := x % 4294967296

/-- Right rotation of a 32-bit word. -/
def rotr32 (n x : Nat) : Nat := m32 ((x >>> n) ||| (x <<< (32 - n)))

/-- SHA-256 big sigma 0. -/
def bsig0 (x : Nat) : Nat := rotr32 2 x ^^^ rotr32 13 x ^^^ rotr32 22 x

/-- SHA-256 big sigma 1. -/
def bsig1 (x : Nat) : Nat := rotr32 6 x ^^^ rotr32 11 x ^^^ rotr32 25 x

/-- SHA-256 small sigma 0. -/
def ssig0 (x : Nat) : Nat := rotr32 7 x ^^^ rotr32 18 x ^^^ (x >>> 3)

/-- SHA-256 small sigma 1. -/
def ssig1 (x : Nat) : Nat := rotr32 17 x ^^^ rotr32 19 x ^^^ (x >>> 10)

/-- SHA-256 round constants. -/
def shaK : List Nat :=
  [1116352408, 1899447441, 3049323471, 3921009573, 961987163,
   1508970993, 2453635748, 2870763221, 3624381080, 310598401,
   607225278, 1426881987, 1925078388, 2162078206, 2614888103,
   3248222580, 3835390401, 4022224774, 264347078, 604807628,
   770255983, 1249150122, 1555081692, 1996064986, 2554220882,
   2821834349, 2952996808, 3210313671, 3336571891, 3584528711,
   113926993, 338241895, 666307205, 773529912, 1294757372,
   1396182291, 1695183700, 1986661051, 2177026350, 2456956037,
   2730485921, 2820302411, 3259730800, 3345764771, 3516065817,
   3600352804, 4094571909, 275423344, 430227734, 506948616,
   659060556, 883997877, 958139571, 1322822218, 1537002063,
   1747873779, 1955562222, 2024104815, 2227730452, 2361852424,
   2428436474, 2756734187, 3204031479, 3329325298]

/-- SHA-256 initial hash state. -/
def shaH0 : List Nat :=
  [1779033703, 3144134277, 1013904242,
   2773480762, 1359893119, 2600822924,
   528734635, 1541459225]

/-- Group bytes into 32-bit big-endian words (4 bytes per word). -/
def bytesToWords : List Nat → List Nat
  | a :: b :: c :: d :: rest => (((a * 256 + b) * 256 + c) * 256 + d) :: bytesToWords rest
  | _ => []

/-- Extend the 16-word message schedule by `n` further words. -/
def extendW : Nat → List Nat → List Nat
  | 0, w => w
  | n + 1, w =>
      let k := w.length
      extendW n (w ++ [m32 (ssig1 (w.getD (k - 2) 0) + w.getD (k - 7) 0 +
                            ssig0 (w.getD (k - 15) 0) + w.getD (k - 16) 0)])

/-- One SHA-256 compression round on state `[a,b,c,d,e,f,g,h]` with
round constant plus schedule word `kw`. -/
def shaRound (st : List Nat) (kw : Nat) : List Nat :=
  match st with
  | [a, b, c, d, e, f, g, h] =>
      let ch := (e &&& f) ^^^ ((e ^^^ 4294967295) &&& g)
      let maj := (a &&& b) ^^^ (a &&& c) ^^^ (b &&& c)
      let t1 := m32 (h + bsig1 e + ch + kw)
      let t2 := m32 (bsig0 a + maj)
      [m32 (t1 + t2), a, b, c, m32 (d + t1), e, f, g]
  | other => other

/-- Compress one 64-byte block into the hash state. -/
def compressBlock (H : List Nat) (block : List Nat) : List Nat :=
  let w := extendW 48 (bytesToWords block)
  let st := (shaK.zip w).foldl (fun st kw => shaRound st (m32 (kw.1 + kw.2))) H
  List.zipWith (fun h s => m32 (h + s)) H st

/-- Fold the compression function over all 64-byte blocks.  The fuel is
one more than the byte count, and each step drops at least one byte, so
the fuel-exhausted case is unreachable. -/
def shaBlocks : Nat → List Nat → List Nat → List Nat
  | 0, H, _ => H
  | fuel + 1, H, bytes =>
      if bytes.isEmpty then H
      else shaBlocks fuel (compressBlock H (bytes.take 64)) (bytes.drop 64)

/-- SHA-256 padding: append `0x80`, zeros to 56 mod 64, then the 8-byte
big-endian bit length. -/
def shaPad (msg : List Nat) : List Nat :=
  msg ++ 128 :: List.replicate ((119 - msg.length % 64) % 64) 0 ++ toBytesBEfixed 8 (8 * msg.length)

/-- Python's `hashlib.sha256(msg).digest()`: the 32-byte SHA-256 digest. -/
def sha256 (msg : List Nat) : List Nat :=
  ((shaBlocks (msg.length + 73) shaH0 (shaPad msg)).map (toBytesBEfixed 4)).flatten

/-! ### Strict UTF-8 validation (`bytes.decode()`) -/

/-- A UTF-8 continuation byte, `0x80`–`0xBF`. -/
def isUtf8Cont (c : Nat) : Bool := 128 ≤ c && c ≤ 191

/-- Whether a byte string is valid UTF-8 under Python's strict
`bytes.decode()` (rejecting overlong forms, surrogates and values above
`U+10FFFF`). -/
def isValidUtf8 : List Nat → Bool
  | [] => true
  | b :: rest =>
    if b < 128 then isValidUtf8 rest
    else if b < 194 then false
    else if b ≤ 223 then
      match rest with
      | c1 :: r1 => isUtf8Cont c1 && isValidUtf8 r1
      | [] => false
    else if b ≤ 239 then
      match rest with
      | c1 :: c2 :: r2 =>
          (if b = 224 then 160 ≤ c1 && c1 ≤ 191
           else if b = 237 then 128 ≤ c1 && c1 ≤ 159
           else isUtf8Cont c1) && isUtf8Cont c2 && isValidUtf8 r2
      | _ => false
    else if b ≤ 244 then
      match rest with
      | c1 :: c2 :: c3 :: r3 =>
          (if b = 240 then 144 ≤ c1 && c1 ≤ 191
           else if b = 244 then 128 ≤ c1 && c1 ≤ 143
           else isUtf8Cont c1) && isUtf8Cont c2 && isUtf8Cont c3 && isValidUtf8 r3
      | _ => false
    else false

/-! ### Leaf record decoding (`parse_at_leaf`) -/

/-- Modelled from the spec: `AtLogDataType` comes from the repository's
`lib` package (generated protobuf bindings), which is not under `src/`.
Per the spec the data-kind byte is mapped to the enumerated set of known
kinds, and unknown values are preserved as an "unrecognized kind"
variant rather than failing.  Only the release kind is semantically
distinguished by the pipeline, so the known kinds are modelled as the
single release tag. -/
inductive AtLogDataType where
  | release
  | unrecognized (tag : Nat)
deriving DecidableEq, Repr

/-- Modelled from the spec: the numeric wire value of the release kind
in `lib`'s `AtLogDataType` enum.  Claims only depend on equality with
this tag, never on its numeric value. -/
def RELEASE_TAG : Nat := 1

/-- Whether a data-kind byte is one of the enumerated known kinds. -/
def isKnownKind (b : Nat) : Bool := b == RELEASE_TAG

/-- The `AtLogDataType(b)` conversion: map a data-kind byte to the enum, preserving
unknown values. -/
def AtLogDataType.ofNat (b : Nat) : AtLogDataType :=
  if b = RELEASE_TAG then .release else .unrecognized b

/-- The `TransparencyExtension` dataclass: a typed opaque extension record. -/
structure TransparencyExtension where
  type : Nat
  data : List Nat
deriving DecidableEq, Repr

/-- The `ATLeaf` dataclass: the decoded leaf record.  The Python `str`
description is represented by its UTF-8 code units (`parse_at_leaf`
checks validity); `expiry_ms` keeps the raw milliseconds value (the
`expiry` property's `datetime` conversion is display-only). -/
structure ATLeaf where
  version : Nat
  type : AtLogDataType
  description : Option (List Nat)
  hash : Option (List Nat)
  expiry_ms : Nat
  extensions : List TransparencyExtension
deriving DecidableEq, Repr

/-- The `while extensions_stream.tell() < extensions_size` loop of
`parse_at_leaf`.  `rem` is the unread suffix of `extensions_raw`, `pos`
is `tell()`, and reads clamp exactly like `BytesIO.read`: `read(1)[0]`
raises `IndexError` on an exhausted stream, while `read(2)` and
`read(extension_size)` return (and advance by) only the bytes
available.  The fuel starts at `size + 1`; since `pos` grows by at
least one per iteration and the loop runs only while `pos < size`, the
fuel never reaches zero. -/
def parseExtLoop : Nat → List Nat → Nat → Nat → Except PyErr (List TransparencyExtension)
  | 0, _, _, _ => .ok []
  | fuel + 1, rem, pos, size =>
    if pos < size then
      match rem with
      | [] => .error .indexError
      | t :: rem1 =>
        let sizeBytes := rem1.take 2
        let rem2 := rem1.drop 2
        let esz := fromBytesBE sizeBytes
        let d := rem2.take esz
        let rem3 := rem2.drop esz
        match parseExtLoop fuel rem3 (pos + 1 + sizeBytes.length + d.length) size with
        | .error e => .error e
        | .ok rest => .ok (⟨t, d⟩ :: rest)
    else .ok []

/-- The extension-list decode of `parse_at_leaf`: a `BytesIO` over
`extensions_raw` looped while `tell() < extensions_size`. -/
def parseExtensionsRegion (extensions_raw : List Nat) (extensions_size : Nat) :
    Except PyErr (List TransparencyExtension) :=
  parseExtLoop (extensions_size + 1) extensions_raw 0 extensions_size

/-- The `parse_at_leaf(raw)` decoder.  Each `stream.read(1)[0]` is a `match` whose
empty case is `IndexError`; each multi-byte `stream.read(n)` is
`take n` / `drop n` on the unread suffix (clamping, never raising);
`.decode()` fails with `UnicodeDecodeError` on invalid UTF-8; the
`or None` idioms make zero-length description and hash absent. -/
def parse_at_leaf (raw : List Nat) : Except PyErr ATLeaf :=
  match raw with
  | [] => .error .indexError
  | version :: r1 =>
    match r1 with
    | [] => .error .indexError
    | typeByte :: r2 =>
      let type := AtLogDataType.ofNat typeByte
      match r2 with
      | [] => .error .indexError
      | description_size :: r3 =>
        let descBytes := r3.take description_size
        let r4 := r3.drop description_size
        if isValidUtf8 descBytes then
          let description := if descBytes.isEmpty then none else some descBytes
          match r4 with
          | [] => .error .indexError
          | hash_size :: r5 =>
            let hashBytes := r5.take hash_size
            let r6 := r5.drop hash_size
            let hash := if hashBytes.isEmpty then none else some hashBytes
            let expiry_ms := fromBytesBE (r6.take 8)
            let r7 := r6.drop 8
            let extensions_size := fromBytesBE (r7.take 2)
            let r8 := r7.drop 2
            let extensions_raw := r8.take extensions_size
            match parseExtensionsRegion extensions_raw extensions_size with
            | .error e => .error e
            | .ok extensions => .ok ⟨version, type, description, hash, expiry_ms, extensions⟩
        else .error .unicodeDecodeError

/-! ### ASN.1 DER decoding (`asn1.Decoder`, as used by `Release.__init__`)

The `asn1` library keeps a stack of bounded frames; entering a
constructed element slices its content bytes into a fresh frame.  The
model passes each frame's unread suffix explicitly.  Tag numbers:
INTEGER `2`, OCTET STRING `4`, SEQUENCE `16`, SET `17`. -/

/-- A decoded ASN.1 identifier octet: number, constructed bit, class. -/
structure Asn1Tag where
  nr : Nat
  constructed : Bool
  cls : Nat
deriving DecidableEq, Repr

/-- The high-tag-number continuation loop of the `asn1` tag decoder:
`nr = (nr << 7) | (byte & 0x7f)` until the top bit clears; premature
end of input is an `asn1.Error`. -/
def decodeTagNrLoop : List Nat → Nat → Except PyErr (Nat × List Nat)
  | [], _ => .error .asn1Error
  | b :: rest, acc =>
      let acc2 := (acc <<< 7) ||| (b &&& 127)
      if b &&& 128 = 0 then .ok (acc2, rest) else decodeTagNrLoop rest acc2

/-- The `asn1` library's `_read_tag`: class is `byte & 0xc0`, constructed bit is
`byte & 0x20`, number is `byte & 0x1f` with `0x1f` marking the
high-tag-number form. -/
def decodeTag : List Nat → Except PyErr (Asn1Tag × List Nat)
  | [] => .error .asn1Error
  | b :: rest =>
      let cls := b &&& 192
      let constructed := b &&& 32 != 0
      let nr := b &&& 31
      if nr = 31 then
        match decodeTagNrLoop rest 0 with
        | .error e => .error e
        | .ok (nr2, r2) => .ok (⟨nr2, constructed, cls⟩, r2)
      else .ok (⟨nr, constructed, cls⟩, rest)

/-- The `asn1` library's `_read_bytes(count)`: exactly `count` bytes or an
`asn1.Error` (premature end of input); never clamps. -/
def readBytes (n : Nat) (l : List Nat) : Except PyErr (List Nat × List Nat) :=
  if n ≤ l.length then .ok (l.take n, l.drop n) else .error .asn1Error

/-- The `asn1` library's `_read_length`: short form if the top bit is clear; long
form reads `byte & 0x7f` further big-endian bytes, with `0x7f` itself an
`asn1.Error` (reserved). -/
def decodeLength : List Nat → Except PyErr (Nat × List Nat)
  | [] => .error .asn1Error
  | b :: rest =>
      if b &&& 128 = 0 then .ok (b, rest)
      else
        let count := b &&& 127
        if count = 127 then .error .asn1Error
        else
          match readBytes count rest with
          | .error e => .error e
          | .ok (bs, r) => .ok (fromBytesBE bs, r)

/-- The `asn1` library's `_decode_integer`: big-endian two's complement; empty
content hits `values[0]` and raises `IndexError`. -/
def decodeInteger : List Nat → Except PyErr Int
  | [] => .error .indexError
  | b :: rest =>
      let v : Int := (fromBytesBE (b :: rest) : Nat)
      .ok (if b &&& 128 = 0 then v else v - 2 ^ (8 * (b :: rest).length))

/-- Values `Release.__init__` can receive from `asn1.Decoder.read`. -/
inductive Asn1Value where
  | int (i : Int)
  | bytes (b : List Nat)
deriving DecidableEq, Repr

/-- The `asn1` library's `_decode_value`, restricted to what `Release.__init__`
observes: INTEGER and ENUMERATED decode to an integer; every other tag's
content is kept as raw bytes.  (The library decodes a few more tags —
strings, OIDs, booleans — specially; `Release.__init__` asserts those
tags away, so only the failure kind would differ.) -/
def decodeAsn1Value (tag : Asn1Tag) (content : List Nat) : Except PyErr Asn1Value :=
  if tag.nr = 2 ∨ tag.nr = 10 then
    match decodeInteger content with
    | .error e => .error e
    | .ok i => .ok (.int i)
  else .ok (.bytes content)

/-- One `decoder.read()` call on the frame whose unread suffix is `l`: at end of
input the library returns `None` and the caller's tuple unpack raises
`TypeError`; otherwise tag, length and value are decoded in order. -/
def asn1Read (l : List Nat) : Except PyErr (Asn1Tag × Asn1Value × List Nat) :=
  match l with
  | [] => .error .typeError
  | _ :: _ =>
    match decodeTag l with
    | .error e => .error e
    | .ok (tag, r1) =>
      match decodeLength r1 with
      | .error e => .error e
      | .ok (len, r2) =>
        match readBytes len r2 with
        | .error e => .error e
        | .ok (content, r3) =>
          match decodeAsn1Value tag content with
          | .error e => .error e
          | .ok v => .ok (tag, v, r3)

/-- The `tag = decoder.peek(); assert tag.nr == want; decoder.enter()`
sequence of `Release.__init__`: `peek()` at end of input returns `None`,
so `tag.nr` raises `AttributeError`; a failed `assert` on the tag number
is a bare `AssertionError`; `enter()` on a non-constructed tag is an
`asn1.Error`; then the declared content bytes become the new frame,
returned together with the unread rest of the old frame. -/
def peekAssertEnter (want : Nat) (l : List Nat) : Except PyErr (List Nat × List Nat) :=
  match l with
  | [] => .error .attributeError
  | _ :: _ =>
    match decodeTag l with
    | .error e => .error e
    | .ok (tag, r1) =>
      if tag.nr ≠ want then .error .assertionFailed
      else if !tag.constructed then .error .asn1Error
      else
        match decodeLength r1 with
        | .error e => .error e
        | .ok (len, r2) => readBytes len r2

/-- The `while not decoder.eof()` loop over the SET frame in
`Release.__init__`: each element is `read()` and asserted to be an
OCTET STRING, collecting the secondary tickets in encounter order.  The
fuel starts at one more than the frame length; a successful `read()`
always consumes at least the identifier octet, so the fuel never
reaches zero. -/
def parseSetElemsFuel : Nat → List Nat → Except PyErr (List (List Nat))
  | 0, _ => .ok []
  | fuel + 1, l =>
    if l.isEmpty then .ok []
    else
      match asn1Read l with
      | .error e => .error e
      | .ok (tag, v, r) =>
        if tag.nr ≠ 4 then .error .assertionFailed
        else
          match v with
          | .int _ => .error .assertionFailed
          | .bytes ct =>
            match parseSetElemsFuel fuel r with
            | .error e => .error e
            | .ok rest => .ok (ct :: rest)

/-- The SET-of-secondary-tickets loop, started on a full SET frame. -/
def parseSetElems (l : List Nat) : Except PyErr (List (List Nat)) :=
  parseSetElemsFuel (l.length + 1) l

/-- The ASN.1 portion of `Release.__init__` (lines 242-264): enter the
outer SEQUENCE, read INTEGER `version` and assert it equals `1`, read
the OCTET STRING `ap_ticket`, enter the SET and collect the
`cryptex_tickets`.  Bytes left in the outer SEQUENCE after the SET, and
bytes after the outer SEQUENCE, are never examined. -/
def parseTicketBundle (tickets_raw : List Nat) : Except PyErr (List Nat × List (List Nat)) :=
  match peekAssertEnter 16 tickets_raw with
  | .error e => .error e
  | .ok (seqContent, _afterSeq) =>
    match asn1Read seqContent with
    | .error e => .error e
    | .ok (tag1, v1, r1) =>
      if tag1.nr ≠ 2 then .error .assertionFailed
      else
        match v1 with
        | .bytes _ => .error .assertionFailed
        | .int version =>
          if version ≠ 1 then .error .assertionFailed
          else
            match asn1Read r1 with
            | .error e => .error e
            | .ok (tag2, v2, r2) =>
              if tag2.nr ≠ 4 then .error .assertionFailed
              else
                match v2 with
                | .int _ => .error .assertionFailed
                | .bytes ap_ticket =>
                  match peekAssertEnter 17 r2 with
                  | .error e => .error e
                  | .ok (setContent, _trailingInSeq) =>
                    match parseSetElems setContent with
                    | .error e => .error e
                    | .ok cryptex_tickets => .ok (ap_ticket, cryptex_tickets)

/-! ### Release assembly (`Release.__init__`, `get_releases_from_leaves`) -/

/-- The externally-decoded `ReleaseMetadata` block (a protobuf message
parsed by `lib`'s generated bindings; out of scope for the core per the
spec, which supplies it as an already-decoded optional input).  Only the
fields `Release.__init__` copies are kept. -/
structure ReleaseMetadata where
  schema_version : Nat
  timestamp : Nat
deriving DecidableEq, Repr

/-- Modelled from the spec: the numeric wire value of `ATL_NODE` in
`lib`'s `NodeType` enum.  Claims only depend on equality with it. -/
def ATL_NODE : Nat := 1

/-- One `LogLeavesResponseLeaf` as the pipeline consumes it.  The
transport-level protobuf parse of `node_bytes` into `ChangeLogNodeV2`
is outside the core (spec: external transport layer), so the leaf
carries the `mutation` payload directly, and `metadata` is the
externally-decoded optional block (`None` models empty
`log_leaf.metadata` bytes, which are falsy in Python). -/
structure LogLeaf where
  index : Nat
  node_type : Nat
  metadata : Option ReleaseMetadata
  raw_data : List Nat
  mutation : List Nat
deriving DecidableEq, Repr

/-- The `Release` dataclass fields the decode core populates.  `assets`
and `darwin_init` (projections of the external metadata block) are out
of scope; `expires_ms` keeps the raw milliseconds of `at_leaf.expiry`. -/
structure Release where
  release_metadata_present : Bool
  schema : Option Nat
  index : Nat
  created : Option Nat
  expires_ms : Nat
  hash : Option (List Nat)
  tickets_raw : List Nat
  ap_ticket : List Nat
  cryptex_tickets : List (List Nat)
deriving DecidableEq, Repr

/-- The constructor `Release.__init__(log_leaf, at_leaf)`: copy index, expiry and hash;
attach the metadata block if present; `assert self.tickets_raw` (empty
raw data is falsy, a bare `AssertionError`); then decode the ticket
bundle. -/
def Release.init (log_leaf : LogLeaf) (at_leaf : ATLeaf) : Except PyErr Release :=
  let tickets_raw := log_leaf.raw_data
  if tickets_raw.isEmpty then .error .assertionFailed
  else
    match parseTicketBundle tickets_raw with
    | .error e => .error e
    | .ok (ap_ticket, cryptex_tickets) =>
      .ok { release_metadata_present := log_leaf.metadata.isSome
            schema := log_leaf.metadata.map ReleaseMetadata.schema_version
            index := log_leaf.index
            created := log_leaf.metadata.map ReleaseMetadata.timestamp
            expires_ms := at_leaf.expiry_ms
            hash := at_leaf.hash
            tickets_raw := tickets_raw
            ap_ticket := ap_ticket
            cryptex_tickets := cryptex_tickets }

/-- The per-leaf body of `get_releases_from_leaves`: non-`ATL_NODE`
leaves are skipped; the mutation payload is decoded; if raw data is
present its SHA-256 digest must equal the leaf's declared hash
(`assert hashlib.sha256(raw_data).digest() == at_leaf.hash,
"Hash mismatch"` — comparing against a `None` hash is simply unequal);
only release-kind leaves are assembled into a `Release`. -/
def processLeaf (leaf : LogLeaf) : Except PyErr (Option Release) :=
  if leaf.node_type = ATL_NODE then
    match parse_at_leaf leaf.mutation with
    | .error e => .error e
    | .ok at_leaf =>
      if ¬leaf.raw_data.isEmpty ∧ some (sha256 leaf.raw_data) ≠ at_leaf.hash then
        .error .hashMismatch
      else if at_leaf.type = AtLogDataType.release then
        match Release.init leaf at_leaf with
        | .error e => .error e
        | .ok r => .ok (some r)
      else .ok none
  else .ok none

/-- The function `get_releases_from_leaves(log_leaves)`: process the batch in order,
collecting releases; any raised exception aborts the whole batch. -/
def get_releases_from_leaves : List LogLeaf → Except PyErr (List Release)
  | [] => .ok []
  | leaf :: rest =>
    match processLeaf leaf with
    | .error e => .error e
    | .ok none => get_releases_from_leaves rest
    | .ok (some r) =>
      match get_releases_from_leaves rest with
      | .error e => .error e
      | .ok rs => .ok (r :: rs)

/-! ### Test-only encoders (for round-trip statements) -/

/-- Encode one extension record: `kind`(1) `payloadLen`(2, big-endian)
`payload`. -/
def encodeExtension (e : TransparencyExtension) : List Nat :=
  e.type :: toBytesBEfixed 2 e.data.length ++ e.data

/-- Encode an extension list (the byte content of the extensions
region). -/
def encodeExts (es : List TransparencyExtension) : List Nat :=
  (es.map encodeExtension).flatten

/-- The data-kind byte a producer writes for a leaf kind. -/
def kindByte : AtLogDataType → Nat
  | .release => RELEASE_TAG
  | .unrecognized t => t

/-- Encode a leaf record in the wire layout `parse_at_leaf` reads:
version(1) kind(1) descLen(1) desc digestLen(1) digest expiry(8, BE)
extRegionLen(2, BE) extensions. -/
def encode_at_leaf (l : ATLeaf) : List Nat :=
  let descBytes := l.description.getD []
  let hashBytes := l.hash.getD []
  let extBytes := encodeExts l.extensions
  l.version :: kindByte l.type :: descBytes.length ::
    (descBytes ++ hashBytes.length :: (hashBytes ++ toBytesBEfixed 8 l.expiry_ms ++
      toBytesBEfixed 2 extBytes.length ++ extBytes))

/-- A leaf kind whose data-kind byte is an actual byte and decodes back
to the same kind. -/
def validKindB : AtLogDataType → Bool
  | .release => true
  | .unrecognized t => decide (t < 256) && decide (t ≠ RELEASE_TAG)

/-- A description a producer can write: absent, or nonempty valid UTF-8
with a one-byte length. -/
def validDescB : Option (List Nat) → Bool
  | none => true
  | some d => !d.isEmpty && decide (d.length < 256) && isValidUtf8 d

/-- A digest a producer can write: absent, or nonempty with a one-byte
length. -/
def validHashB : Option (List Nat) → Bool
  | none => true
  | some h => !h.isEmpty && decide (h.length < 256)

/-- Field values a producer can actually put on the wire: byte-sized
tags and length prefixes, a present description nonempty valid UTF-8,
a present digest nonempty, expiry within 64 bits, extensions within the
16-bit region. -/
def ValidLeaf (l : ATLeaf) : Prop :=
  l.version < 256 ∧
  validKindB l.type = true ∧
  validDescB l.description = true ∧
  validHashB l.hash = true ∧
  l.expiry_ms < 2 ^ 64 ∧
  (∀ e ∈ l.extensions, e.type < 256 ∧ e.data.length < 65536) ∧
  (encodeExts l.extensions).length < 65536

instance (l : ATLeaf) : Decidable (ValidLeaf l) := by
  unfold ValidLeaf
  exact inferInstance

/-- DER length encoding: short form below 128, long form otherwise. -/
def encodeLen (n : Nat) : List Nat :=
  if n < 128 then [n] else (128 + (natToBytesBE n).length) :: natToBytesBE n

/-- DER tag-length-value framing with a single identifier octet. -/
def encodeTLV (t : Nat) (content : List Nat) : List Nat :=
  t :: encodeLen content.length ++ content

/-- The content of a DER SET OF OCTET STRING holding the given
secondary tickets in order. -/
def encodeSetBody (cts : List (List Nat)) : List Nat :=
  (cts.map (encodeTLV 4)).flatten

/-- A well-formed ticket bundle with `formatVersion = 1` and the given
extra bytes left inside the outer SEQUENCE after the SET. -/
def encodeBundleWithTrailing (ap : List Nat) (cts : List (List Nat)) (trailing : List Nat) :
    List Nat :=
  encodeTLV 48 (encodeTLV 2 [1] ++ encodeTLV 4 ap ++ encodeTLV 49 (encodeSetBody cts) ++ trailing)

/-! ### Concrete data for witnesses and counterexamples -/

/-- The SHA-256 digest of the three bytes `"abc"` (checked below by
evaluation of `sha256`). -/
def digestAbc : List Nat :=
  [0xba, 0x78, 0x16, 0xbf, 0x8f, 0x01, 0xcf, 0xea, 0x41, 0x41, 0x40, 0xde, 0x5d, 0xae, 0x22, 0x23,
   0xb0, 0x03, 0x61, 0xa3, 0x96, 0x17, 0x7a, 0x9c, 0xb4, 0x10, 0xff, 0x61, 0xf2, 0x00, 0x15, 0xad]

/-- A log leaf whose raw data is `"abc"` and whose mutation declares the
matching 32-byte digest (version 1, unknown kind 9, no description,
expiry 0, no extensions). -/
def leafAbc : LogLeaf :=
  { index := 0, node_type := ATL_NODE, metadata := none,
    raw_data := [97, 98, 99],
    mutation := [1, 9, 0, 32] ++ digestAbc ++ [0, 0, 0, 0, 0, 0, 0, 0, 0, 0] }

/-- A log leaf with raw data present but no digest declared in its
mutation payload (digest length prefix zero). -/
def leafNoDigest : LogLeaf :=
  { index := 0, node_type := ATL_NODE, metadata := none,
    raw_data := [97],
    mutation := [1, 9, 0, 0, 0, 0, 0, 0, 0, 0, 0, 0, 0, 0] }

/-- A non-release log leaf with no raw data (kind byte 9). -/
def leafOtherKind : LogLeaf :=
  { index := 0, node_type := ATL_NODE, metadata := none,
    raw_data := [],
    mutation := [1, 9, 0, 0, 0, 0, 0, 0, 0, 0, 0, 0, 0, 0] }

/-- A release-kind log leaf whose raw data is absent (empty). -/
def leafReleaseNoRaw : LogLeaf :=
  { index := 3, node_type := ATL_NODE, metadata := none,
    raw_data := [],
    mutation := [1, 1, 0, 0, 0, 0, 0, 0, 0, 0, 0, 0, 0, 0] }

/-! ### Basic byte-level lemmas -/

theorem fromBytesBE_append (xs ys : List Nat) :
    fromBytesBE (xs ++ ys) = ys.foldl (fun acc b => acc * 256 + b) (fromBytesBE xs) := by
  unfold fromBytesBE
  exact List.foldl_append _ _ xs ys

theorem fromBytesBE_snoc (xs : List Nat) (b : Nat) :
    fromBytesBE (xs ++ [b]) = fromBytesBE xs * 256 + b := by
  rw [fromBytesBE_append]
  rfl

theorem length_toBytesBEfixed (n v : Nat) : (toBytesBEfixed n v).length = n := by
  induction n generalizing v with
  | zero => rfl
  | succ k ih => simp [toBytesBEfixed, ih]

theorem fromBytesBE_toBytesBEfixed (n v : Nat) (h : v < 256 ^ n) :
    fromBytesBE (toBytesBEfixed n v) = v := by
  induction n generalizing v with
  | zero =>
    interval_cases v
    rfl
  | succ k ih =>
    have hdiv : v / 256 < 256 ^ k := by
      rw [Nat.div_lt_iff_lt_mul (by norm_num : 0 < 256)]
      calc v < 256 ^ (k + 1) := h
        _ = 256 ^ k * 256 := by ring
    rw [toBytesBEfixed, fromBytesBE_snoc, ih _ hdiv]
    omega

theorem fromBytesBE_natToBytesBE (v : Nat) : fromBytesBE (natToBytesBE v) = v := by
  induction v using Nat.strong_induction_on with
  | _ v ih =>
    unfold natToBytesBE
    split
    · simp [fromBytesBE, *]
    · rename_i hv
      rw [fromBytesBE_snoc, ih (v / 256) (Nat.div_lt_self (Nat.pos_of_ne_zero hv) (by omega))]
      omega

theorem natToBytesBE_length_le (k v : Nat) (h : v < 256 ^ k) :
    (natToBytesBE v).length ≤ k := by
  induction v using Nat.strong_induction_on generalizing k with
  | _ v ih =>
    unfold natToBytesBE
    split
    · simp
    · rename_i hv
      have hk : k ≠ 0 := by
        rintro rfl
        simp at h
        omega
      obtain ⟨k2, rfl⟩ := Nat.exists_eq_succ_of_ne_zero hk
      have hdiv : v / 256 < 256 ^ k2 := by
        rw [Nat.div_lt_iff_lt_mul (by norm_num : 0 < 256)]
        calc v < 256 ^ (k2 + 1) := h
          _ = 256 ^ k2 * 256 := by ring
      have := ih (v / 256) (Nat.div_lt_self (Nat.pos_of_ne_zero hv) (by omega)) k2 hdiv
      simp only [List.length_append, List.length_cons, List.length_nil]
      omega

theorem land128_of_lt (b : Nat) (h : b < 128) : b &&& 128 = 0 := by
  revert h
  revert b
  decide

theorem land_128_add (k : Nat) (h : k < 128) :
    (128 + k) &&& 128 = 128 ∧ (128 + k) &&& 127 = k := by
  revert h
  revert k
  decide

/-! ### Extension-loop lemmas -/

theorem parseExtLoop_error : ∀ fuel rem pos size e,
    parseExtLoop fuel rem pos size = .error e → e = .indexError := by
  intro fuel
  induction fuel with
  | zero =>
    intro rem pos size e h
    simp [parseExtLoop] at h
  | succ k ih =>
    intro rem pos size e h
    simp only [parseExtLoop] at h
    split at h
    · cases rem with
      | nil =>
        simp only [Except.error.injEq] at h
        exact h.symm
      | cons t rem1 =>
        simp only at h
        cases hrec : parseExtLoop k ((rem1.drop 2).drop (fromBytesBE (rem1.take 2)))
            (pos + 1 + (rem1.take 2).length +
              (((rem1.drop 2).take (fromBytesBE (rem1.take 2)))).length) size with
        | error e2 =>
          rw [hrec] at h
          simp only [Except.error.injEq] at h
          exact h ▸ ih _ _ _ _ hrec
        | ok rest =>
          rw [hrec] at h
          simp at h
    · simp at h

theorem parseExtLoop_encode : ∀ es fuel pos size,
    (∀ e ∈ es, e.data.length < 65536) →
    size = pos + (encodeExts es).length →
    (encodeExts es).length < fuel →
    parseExtLoop fuel (encodeExts es) pos size = .ok es := by
  intro es
  induction es with
  | nil =>
    intro fuel pos size _ hsize _
    have : ¬pos < size := by
      simp [encodeExts] at hsize
      omega
    cases fuel with
    | zero => rfl
    | succ k => simp [parseExtLoop, this]
  | cons e rest ih =>
    intro fuel pos size hv hsize hfuel
    have hL : e.data.length < 65536 := hv e (by simp)
    have hlen : (encodeExts (e :: rest)).length =
        3 + e.data.length + (encodeExts rest).length := by
      simp [encodeExts, encodeExtension, length_toBytesBEfixed]
      omega
    cases fuel with
    | zero => omega
    | succ f =>
      have hpos : pos < size := by omega
      have hshape : encodeExts (e :: rest) =
          e.type :: (toBytesBEfixed 2 e.data.length ++ (e.data ++ encodeExts rest)) := by
        simp [encodeExts, encodeExtension]
      rw [hshape]
      simp only [parseExtLoop, hpos, if_pos]
      have htake2 : (toBytesBEfixed 2 e.data.length ++ (e.data ++ encodeExts rest)).take 2 =
          toBytesBEfixed 2 e.data.length := List.take_left' (length_toBytesBEfixed 2 _)
      have hdrop2 : (toBytesBEfixed 2 e.data.length ++ (e.data ++ encodeExts rest)).drop 2 =
          e.data ++ encodeExts rest := List.drop_left' (length_toBytesBEfixed 2 _)
      rw [htake2, hdrop2, fromBytesBE_toBytesBEfixed 2 _ (by norm_num; omega),
        List.take_left, List.drop_left]
      have hrec := ih f (pos + 1 + (toBytesBEfixed 2 e.data.length).length + e.data.length) size
        (fun x hx => hv x (by simp [hx]))
        (by rw [length_toBytesBEfixed]; omega)
        (by omega)
      rw [hrec]

/-! ### Error-classification lemmas -/

theorem parse_at_leaf_error (raw : List Nat) (e : PyErr)
    (h : parse_at_leaf raw = .error e) :
    e = .indexError ∨ e = .unicodeDecodeError := by
  simp only [parse_at_leaf] at h
  cases raw with
  | nil => simp only [Except.error.injEq] at h; exact Or.inl h.symm
  | cons version r1 =>
    cases r1 with
    | nil => simp only [Except.error.injEq] at h; exact Or.inl h.symm
    | cons typeByte r2 =>
      cases r2 with
      | nil => simp only [Except.error.injEq] at h; exact Or.inl h.symm
      | cons description_size r3 =>
        simp only at h
        split at h
        · cases hr4 : r3.drop description_size with
          | nil =>
            rw [hr4] at h
            simp only [Except.error.injEq] at h
            exact Or.inl h.symm
          | cons hash_size r5 =>
            rw [hr4] at h
            simp only at h
            cases hext : parseExtensionsRegion
                ((((r5.drop hash_size).drop 8).drop 2).take
                  (fromBytesBE (((r5.drop hash_size).drop 8).take 2)))
                (fromBytesBE (((r5.drop hash_size).drop 8).take 2)) with
            | error e2 =>
              rw [hext] at h
              simp only [Except.error.injEq] at h
              exact Or.inl (h ▸ parseExtLoop_error _ _ _ _ _ hext)
            | ok exts =>
              rw [hext] at h
              simp at h
        · simp only [Except.error.injEq] at h
          exact Or.inr h.symm


theorem decodeTagNrLoop_ne_hm : ∀ l acc,
    decodeTagNrLoop l acc ≠ .error .hashMismatch := by
  intro l
  induction l with
  | nil => intro acc; simp [decodeTagNrLoop]
  | cons b rest ih =>
    intro acc
    simp only [decodeTagNrLoop]
    split
    · simp
    · exact ih _

theorem decodeTag_ne_hm (l : List Nat) : decodeTag l ≠ .error .hashMismatch := by
  cases l with
  | nil => simp [decodeTag]
  | cons b rest =>
    simp only [decodeTag]
    split
    · cases hloop : decodeTagNrLoop rest 0 with
      | error e =>
        have he : e ≠ .hashMismatch := fun hh => decodeTagNrLoop_ne_hm rest 0 (hh ▸ hloop)
        simp [he]
      | ok p => simp
    · simp

theorem readBytes_ne_hm (n : Nat) (l : List Nat) : readBytes n l ≠ .error .hashMismatch := by
  unfold readBytes
  split <;> simp

theorem decodeLength_ne_hm (l : List Nat) : decodeLength l ≠ .error .hashMismatch := by
  cases l with
  | nil => simp [decodeLength]
  | cons b rest =>
    simp only [decodeLength]
    split
    · simp
    · split
      · simp
      · cases hrb : readBytes (b &&& 127) rest with
        | error e =>
          have he : e ≠ .hashMismatch := fun hh => readBytes_ne_hm _ _ (hh ▸ hrb)
          simp [he]
        | ok p => simp

theorem decodeInteger_ne_hm (l : List Nat) : decodeInteger l ≠ .error .hashMismatch := by
  cases l <;> simp [decodeInteger]

theorem decodeAsn1Value_ne_hm (tag : Asn1Tag) (content : List Nat) :
    decodeAsn1Value tag content ≠ .error .hashMismatch := by
  unfold decodeAsn1Value
  split
  · cases hint : decodeInteger content with
    | error e =>
      have he : e ≠ .hashMismatch := fun hh => decodeInteger_ne_hm _ (hh ▸ hint)
      simp [he]
    | ok i => simp
  · simp

theorem asn1Read_ne_hm (l : List Nat) : asn1Read l ≠ .error .hashMismatch := by
  cases l with
  | nil => simp [asn1Read]
  | cons b rest =>
    simp only [asn1Read]
    cases htag : decodeTag (b :: rest) with
    | error e =>
      have he : e ≠ .hashMismatch := fun hh => decodeTag_ne_hm _ (hh ▸ htag)
      simp [htag, he]
    | ok p1 =>
      obtain ⟨tag, r1⟩ := p1
      cases hlen : decodeLength r1 with
      | error e =>
        have he : e ≠ .hashMismatch := fun hh => decodeLength_ne_hm _ (hh ▸ hlen)
        simp [htag, hlen, he]
      | ok p2 =>
        obtain ⟨len, r2⟩ := p2
        cases hrb : readBytes len r2 with
        | error e =>
          have he : e ≠ .hashMismatch := fun hh => readBytes_ne_hm _ _ (hh ▸ hrb)
          simp [htag, hlen, hrb, he]
        | ok p3 =>
          obtain ⟨content, r3⟩ := p3
          cases hval : decodeAsn1Value tag content with
          | error e =>
            have he : e ≠ .hashMismatch := fun hh => decodeAsn1Value_ne_hm _ _ (hh ▸ hval)
            simp [htag, hlen, hrb, hval, he]
          | ok v => simp [htag, hlen, hrb, hval]

theorem peekAssertEnter_ne_hm (want : Nat) (l : List Nat) :
    peekAssertEnter want l ≠ .error .hashMismatch := by
  cases l with
  | nil => simp [peekAssertEnter]
  | cons b rest =>
    simp only [peekAssertEnter]
    cases htag : decodeTag (b :: rest) with
    | error e =>
      have he : e ≠ .hashMismatch := fun hh => decodeTag_ne_hm _ (hh ▸ htag)
      simp [htag, he]
    | ok p1 =>
      obtain ⟨tag, r1⟩ := p1
      simp only [htag]
      split
      · simp
      · split
        · simp
        · cases hlen : decodeLength r1 with
          | error e =>
            have he : e ≠ .hashMismatch := fun hh => decodeLength_ne_hm _ (hh ▸ hlen)
            simp [hlen, he]
          | ok p2 =>
            obtain ⟨len, r2⟩ := p2
            simp only [hlen]
            exact readBytes_ne_hm len r2

theorem parseSetElemsFuel_ne_hm : ∀ fuel l,
    parseSetElemsFuel fuel l ≠ .error .hashMismatch := by
  intro fuel
  induction fuel with
  | zero => intro l; simp [parseSetElemsFuel]
  | succ k ih =>
    intro l
    simp only [parseSetElemsFuel]
    split
    · simp
    · cases hread : asn1Read l with
      | error e =>
        have he : e ≠ .hashMismatch := fun hh => asn1Read_ne_hm _ (hh ▸ hread)
        simp [hread, he]
      | ok p =>
        obtain ⟨tag, v, r⟩ := p
        simp only [hread]
        split
        · simp
        · cases v with
          | int i => simp
          | bytes ct =>
            cases hrec : parseSetElemsFuel k r with
            | error e =>
              have he : e ≠ .hashMismatch := fun hh => ih _ (hh ▸ hrec)
              simp [hrec, he]
            | ok rest => simp [hrec]

theorem parseTicketBundle_ne_hm (raw : List Nat) :
    parseTicketBundle raw ≠ .error .hashMismatch := by
  simp only [parseTicketBundle]
  cases henter : peekAssertEnter 16 raw with
  | error e =>
    have he : e ≠ .hashMismatch := fun hh => peekAssertEnter_ne_hm _ _ (hh ▸ henter)
    simp [henter, he]
  | ok p1 =>
    obtain ⟨seqContent, afterSeq⟩ := p1
    simp only [henter]
    cases hr1 : asn1Read seqContent with
    | error e =>
      have he : e ≠ .hashMismatch := fun hh => asn1Read_ne_hm _ (hh ▸ hr1)
      simp [hr1, he]
    | ok q1 =>
      obtain ⟨tag1, v1, r1⟩ := q1
      simp only [hr1]
      split
      · simp
      · cases v1 with
        | bytes bs => simp
        | int version =>
          split
          · simp
          · cases hr2 : asn1Read r1 with
            | error e =>
              have he : e ≠ .hashMismatch := fun hh => asn1Read_ne_hm _ (hh ▸ hr2)
              simp only [hr2]
              split <;> simp [he]
            | ok q2 =>
              obtain ⟨tag2, v2, r2⟩ := q2
              simp only [hr2]
              split
              · simp
              · cases v2 with
                | int i => simp
                | bytes ap =>
                  cases henter2 : peekAssertEnter 17 r2 with
                  | error e =>
                    have he : e ≠ .hashMismatch :=
                      fun hh => peekAssertEnter_ne_hm _ _ (hh ▸ henter2)
                    simp only [henter2]
                    split <;> simp [he]
                  | ok p2 =>
                    obtain ⟨setContent, trailingInSeq⟩ := p2
                    simp only [henter2]
                    cases hset : parseSetElems setContent with
                    | error e =>
                      have he : e ≠ .hashMismatch :=
                        fun hh => parseSetElemsFuel_ne_hm _ _ (hh ▸ hset)
                      simp only [hset]
                      split <;> simp [he]
                    | ok cts =>
                      simp only [hset]
                      split <;> simp

theorem ReleaseInit_ne_hm (log_leaf : LogLeaf) (at_leaf : ATLeaf) :
    Release.init log_leaf at_leaf ≠ .error .hashMismatch := by
  simp only [Release.init]
  split
  · simp
  · cases hb : parseTicketBundle log_leaf.raw_data with
    | error e =>
      have he : e ≠ .hashMismatch := fun hh => parseTicketBundle_ne_hm _ (hh ▸ hb)
      simp [hb, he]
    | ok p =>
      obtain ⟨ap, cts⟩ := p
      simp [hb]

/-! ### DER round-trip lemmas -/

theorem readBytes_exact (xs rest : List Nat) :
    readBytes xs.length (xs ++ rest) = .ok (xs, rest) := by
  unfold readBytes
  rw [if_pos (by simp)]
  rw [List.take_left, List.drop_left]

theorem encodeLen_length_pos (n : Nat) : 1 ≤ (encodeLen n).length := by
  unfold encodeLen
  split <;> simp

theorem decodeLength_encodeLen (n : Nat) (rest : List Nat) (h : n < 2 ^ 64) :
    decodeLength (encodeLen n ++ rest) = .ok (n, rest) := by
  unfold encodeLen
  split
  · rename_i hlt
    simp only [List.cons_append, List.nil_append, decodeLength]
    rw [if_pos (land128_of_lt n hlt)]
  · rename_i hge
    have hk : (natToBytesBE n).length ≤ 8 :=
      natToBytesBE_length_le 8 n (by norm_num; omega)
    have h1 := land_128_add (natToBytesBE n).length (by omega)
    simp only [List.cons_append, decodeLength]
    rw [if_neg (by rw [h1.1]; norm_num), h1.2, if_neg (by omega)]
    have hrb : readBytes (natToBytesBE n).length (natToBytesBE n ++ rest) =
        .ok (natToBytesBE n, rest) := readBytes_exact _ _
    rw [hrb]
    simp [fromBytesBE_natToBytesBE]

theorem asn1Read_integer (c rest : List Nat) (w : Int) (hc : c.length < 2 ^ 64)
    (hw : decodeInteger c = .ok w) :
    asn1Read (encodeTLV 2 c ++ rest) = .ok (⟨2, false, 0⟩, .int w, rest) := by
  unfold encodeTLV
  simp only [List.cons_append, List.append_assoc, asn1Read]
  have htag : decodeTag (2 :: (encodeLen c.length ++ (c ++ rest))) =
      .ok (⟨2, false, 0⟩, encodeLen c.length ++ (c ++ rest)) := rfl
  rw [htag]
  simp [decodeLength_encodeLen _ _ hc, readBytes_exact, decodeAsn1Value, hw]

theorem asn1Read_octet (c rest : List Nat) (hc : c.length < 2 ^ 64) :
    asn1Read (encodeTLV 4 c ++ rest) = .ok (⟨4, false, 0⟩, .bytes c, rest) := by
  unfold encodeTLV
  simp only [List.cons_append, List.append_assoc, asn1Read]
  have htag : decodeTag (4 :: (encodeLen c.length ++ (c ++ rest))) =
      .ok (⟨4, false, 0⟩, encodeLen c.length ++ (c ++ rest)) := rfl
  rw [htag]
  simp [decodeLength_encodeLen _ _ hc, readBytes_exact, decodeAsn1Value]

theorem peekAssertEnter_seq (c rest : List Nat) (hc : c.length < 2 ^ 64) :
    peekAssertEnter 16 (encodeTLV 48 c ++ rest) = .ok (c, rest) := by
  unfold encodeTLV
  simp only [List.cons_append, List.append_assoc, peekAssertEnter]
  have htag : decodeTag (48 :: (encodeLen c.length ++ (c ++ rest))) =
      .ok (⟨16, true, 0⟩, encodeLen c.length ++ (c ++ rest)) := rfl
  rw [htag]
  simp [decodeLength_encodeLen _ _ hc, readBytes_exact]

theorem peekAssertEnter_set (c rest : List Nat) (hc : c.length < 2 ^ 64) :
    peekAssertEnter 17 (encodeTLV 49 c ++ rest) = .ok (c, rest) := by
  unfold encodeTLV
  simp only [List.cons_append, List.append_assoc, peekAssertEnter]
  have htag : decodeTag (49 :: (encodeLen c.length ++ (c ++ rest))) =
      .ok (⟨17, true, 0⟩, encodeLen c.length ++ (c ++ rest)) := rfl
  rw [htag]
  simp [decodeLength_encodeLen _ _ hc, readBytes_exact]

theorem parseSetElemsFuel_encode : ∀ cts fuel, (∀ ct ∈ cts, ct.length < 2 ^ 64) →
    (encodeSetBody cts).length < fuel →
    parseSetElemsFuel fuel (encodeSetBody cts) = .ok cts := by
  intro cts
  induction cts with
  | nil =>
    intro fuel _ hfuel
    cases fuel with
    | zero => omega
    | succ f => simp [parseSetElemsFuel, encodeSetBody]
  | cons ct rest ih =>
    intro fuel hv hfuel
    have hshape : encodeSetBody (ct :: rest) = encodeTLV 4 ct ++ encodeSetBody rest := by
      simp [encodeSetBody]
    have hlen : (encodeTLV 4 ct).length = 1 + (encodeLen ct.length).length + ct.length := by
      simp [encodeTLV]
      omega
    have hminlen : 1 ≤ (encodeLen ct.length).length := encodeLen_length_pos _
    rw [hshape] at hfuel ⊢
    cases fuel with
    | zero => omega
    | succ f =>
      have hne : ((encodeTLV 4 ct ++ encodeSetBody rest).isEmpty) = false := by
        simp [encodeTLV]
      simp only [parseSetElemsFuel, hne, Bool.false_eq_true, if_false]
      rw [asn1Read_octet ct (encodeSetBody rest) (hv ct (by simp))]
      have hfl : (encodeSetBody rest).length < f := by
        simp only [List.length_append] at hfuel
        omega
      simp [ih f (fun x hx => hv x (by simp [hx])) hfl]

theorem parseSetElems_encode (cts : List (List Nat)) (hv : ∀ ct ∈ cts, ct.length < 2 ^ 64) :
    parseSetElems (encodeSetBody cts) = .ok cts :=
  parseSetElemsFuel_encode cts _ hv (by omega)

theorem parseTicketBundle_encode (ap : List Nat) (cts : List (List Nat)) (trailing : List Nat)
    (hap : ap.length < 2 ^ 64) (hcts : ∀ ct ∈ cts, ct.length < 2 ^ 64)
    (hset : (encodeSetBody cts).length < 2 ^ 64)
    (hseq : (encodeTLV 2 [1] ++ encodeTLV 4 ap ++ encodeTLV 49 (encodeSetBody cts) ++
      trailing).length < 2 ^ 64) :
    parseTicketBundle (encodeBundleWithTrailing ap cts trailing) = .ok (ap, cts) := by
  unfold encodeBundleWithTrailing parseTicketBundle
  have henter : peekAssertEnter 16
      (encodeTLV 48 (encodeTLV 2 [1] ++ encodeTLV 4 ap ++ encodeTLV 49 (encodeSetBody cts) ++
        trailing)) = .ok (encodeTLV 2 [1] ++ encodeTLV 4 ap ++
          encodeTLV 49 (encodeSetBody cts) ++ trailing, []) := by
    have := peekAssertEnter_seq (encodeTLV 2 [1] ++ encodeTLV 4 ap ++
      encodeTLV 49 (encodeSetBody cts) ++ trailing) [] hseq
    rwa [List.append_nil] at this
  rw [henter]
  have hread1 : asn1Read (encodeTLV 2 [1] ++ (encodeTLV 4 ap ++
      (encodeTLV 49 (encodeSetBody cts) ++ trailing))) =
      .ok (⟨2, false, 0⟩, .int 1, encodeTLV 4 ap ++
        (encodeTLV 49 (encodeSetBody cts) ++ trailing)) :=
    asn1Read_integer [1] _ 1 (by simp) (by rfl)
  have hread2 : asn1Read (encodeTLV 4 ap ++ (encodeTLV 49 (encodeSetBody cts) ++ trailing)) =
      .ok (⟨4, false, 0⟩, .bytes ap, encodeTLV 49 (encodeSetBody cts) ++ trailing) :=
    asn1Read_octet ap _ hap
  simp only [List.append_assoc, hread1, hread2, peekAssertEnter_set (encodeSetBody cts)
    trailing hset, parseSetElems_encode cts hcts]
  simp

theorem parseExtLoop_done (fuel : Nat) (rem : List Nat) (pos size : Nat) (h : ¬pos < size) :
    parseExtLoop fuel rem pos size = .ok [] := by
  cases fuel <;> simp [parseExtLoop, h]

/-! ### Claims -/

/-- C8: for every well-formed leaf encoding produced from arbitrary
field values (version byte, data-kind byte, optional description,
optional digest, 64-bit big-endian expiry, list of extensions),
decoding the encoding recovers exactly the values used to construct
it, including the encounter order of the extensions. -/
theorem C8_leaf_roundtrip (l : ATLeaf) (h : ValidLeaf l) :
    parse_at_leaf (encode_at_leaf l) = .ok l := by
  obtain ⟨ver, ty, desc, hsh, exp, exts⟩ := l
  obtain ⟨hver, hkind, hdesc, hhash, hexp, hexts, hextlen⟩ := h
  have hofnat : AtLogDataType.ofNat (kindByte ty) = ty := by
    cases ty with
    | release => simp [kindByte, AtLogDataType.ofNat, RELEASE_TAG]
    | unrecognized t =>
      simp only [validKindB, Bool.and_eq_true, decide_eq_true_eq] at hkind
      simp [kindByte, AtLogDataType.ofNat, hkind.2]
  have hdesc1 : isValidUtf8 (desc.getD []) = true := by
    cases desc with
    | none => rfl
    | some d =>
      simp only [validDescB, Bool.and_eq_true, decide_eq_true_eq] at hdesc
      exact hdesc.2
  have hdesc2 : (if (desc.getD []).isEmpty then (none : Option (List Nat))
      else some (desc.getD [])) = desc := by
    cases desc with
    | none => rfl
    | some d =>
      simp only [validDescB, Bool.and_eq_true, decide_eq_true_eq, Bool.not_eq_eq_eq_not,
        Bool.not_true] at hdesc
      simp [hdesc.1.1]
  have hhash2 : (if (hsh.getD []).isEmpty then (none : Option (List Nat))
      else some (hsh.getD [])) = hsh := by
    cases hsh with
    | none => rfl
    | some hx =>
      simp only [validHashB, Bool.and_eq_true, decide_eq_true_eq, Bool.not_eq_eq_eq_not,
        Bool.not_true] at hhash
      simp [hhash.1]
  have h2568 : (256 : Nat) ^ 8 = 2 ^ 64 := by norm_num
  have h2562 : (256 : Nat) ^ 2 = 65536 := by norm_num
  simp only [encode_at_leaf, parse_at_leaf, List.append_assoc, List.cons_append]
  rw [List.take_left, List.drop_left, hdesc1]
  simp only [if_true]
  rw [List.take_left, List.drop_left]
  rw [List.take_left' (length_toBytesBEfixed 8 exp), List.drop_left' (length_toBytesBEfixed 8 exp)]
  rw [List.take_left' (length_toBytesBEfixed 2 (encodeExts exts).length),
    List.drop_left' (length_toBytesBEfixed 2 (encodeExts exts).length)]
  rw [fromBytesBE_toBytesBEfixed 8 exp (by rw [h2568]; exact hexp),
    fromBytesBE_toBytesBEfixed 2 (encodeExts exts).length (by rw [h2562]; exact hextlen),
    List.take_length]
  rw [show parseExtensionsRegion (encodeExts exts) (encodeExts exts).length = .ok exts from
    parseExtLoop_encode exts ((encodeExts exts).length + 1) 0 (encodeExts exts).length
      (fun e he => (hexts e he).2) (by omega) (by omega)]
  rw [hdesc2, hhash2, hofnat]

/-- Witness for C8 at a concrete leaf exercising every field
(description, digest, expiry, two extensions in order). -/
theorem C8_leaf_roundtrip_witness :
    parse_at_leaf (encode_at_leaf ⟨1, .release, some [115, 97], some [171], 99999,
      [⟨5, [1, 2]⟩, ⟨6, []⟩]⟩) =
    .ok ⟨1, .release, some [115, 97], some [171], 99999, [⟨5, [1, 2]⟩, ⟨6, []⟩]⟩ :=
  C8_leaf_roundtrip ⟨1, .release, some [115, 97], some [171], 99999,
    [⟨5, [1, 2]⟩, ⟨6, []⟩]⟩ (by decide)

/-- C1: for every log entry whose raw-data bytes are present and whose
decoded leaf record carries a digest, the pipeline recomputes the
SHA-256 digest of the raw-data bytes and compares it byte-for-byte to
the leaf's declared digest, and reports the digest-mismatch failure
(`PyErr.hashMismatch`, a hard failure distinct from success) exactly
when the two differ. -/
theorem C1_digest_check (leaf : LogLeaf) (at_leaf : ATLeaf) (d : List Nat)
    (h1 : leaf.node_type = ATL_NODE)
    (h2 : parse_at_leaf leaf.mutation = .ok at_leaf)
    (h3 : leaf.raw_data ≠ [])
    (h4 : at_leaf.hash = some d) :
    (processLeaf leaf = .error .hashMismatch ↔ sha256 leaf.raw_data ≠ d) := by
  have hie : leaf.raw_data.isEmpty = false := by
    cases hh : leaf.raw_data
    · exact absurd hh h3
    · rfl
  simp only [processLeaf, h1, if_pos, h2]
  by_cases hs : sha256 leaf.raw_data = d
  · have hcond : ¬(¬leaf.raw_data.isEmpty = true ∧
        some (sha256 leaf.raw_data) ≠ at_leaf.hash) := by
      simp [h4, hs]
    rw [if_neg hcond]
    simp only [hs, ne_eq, not_true_eq_false, iff_false]
    split
    · cases hri : Release.init leaf at_leaf with
      | error e =>
        have hne2 : e ≠ .hashMismatch := fun hh => ReleaseInit_ne_hm leaf at_leaf (hh ▸ hri)
        simp [hri, hne2]
      | ok r => simp [hri]
    · simp
  · have hcond : (¬leaf.raw_data.isEmpty = true ∧
        some (sha256 leaf.raw_data) ≠ at_leaf.hash) := by
      simp [hie, h4, hs]
    rw [if_pos hcond]
    simp [hs]

/-- Witness for C1 at the concrete leaf `leafAbc`: its raw data is
`"abc"` and its leaf record declares the matching SHA-256 digest
`digestAbc`, so the check passes exactly because the digests agree. -/
theorem C1_digest_check_witness :
    (processLeaf leafAbc = .error .hashMismatch ↔ sha256 leafAbc.raw_data ≠ digestAbc) :=
  C1_digest_check leafAbc ⟨1, .unrecognized 9, none, some digestAbc, 0, []⟩ digestAbc
    rfl rfl (by decide) rfl

/-- C2 counterexample: a leaf with raw data `[97]` whose decoded leaf
record carries no digest.  The claim says no digest check is performed
and processing succeeds, but the pipeline still evaluates the digest
assertion against the absent digest and fails with the digest-mismatch
error. -/
theorem C2_counterexample :
    parse_at_leaf leafNoDigest.mutation = .ok ⟨1, .unrecognized 9, none, none, 0, []⟩ ∧
    leafNoDigest.raw_data = [97] ∧
    processLeaf leafNoDigest = .error .hashMismatch :=
  ⟨rfl, rfl, rfl⟩

/-- C2 (amended): for every log entry whose raw-data bytes are present
but whose decoded leaf record carries no digest, the digest comparison
is still performed against the absent digest and processing of the
entry fails with the digest-mismatch error (a freshly computed digest
never equals an absent one); it does not succeed. -/
theorem C2_no_digest_still_checked (leaf : LogLeaf) (at_leaf : ATLeaf)
    (h1 : leaf.node_type = ATL_NODE)
    (h2 : parse_at_leaf leaf.mutation = .ok at_leaf)
    (h3 : leaf.raw_data ≠ [])
    (h4 : at_leaf.hash = none) :
    processLeaf leaf = .error .hashMismatch := by
  have hie : leaf.raw_data.isEmpty = false := by
    cases hh : leaf.raw_data
    · exact absurd hh h3
    · rfl
  simp only [processLeaf, h1, if_pos, h2]
  rw [if_pos (by simp [hie, h4])]

/-- Witness for C2's amended theorem at the concrete leaf
`leafNoDigest`. -/
theorem C2_no_digest_still_checked_witness :
    processLeaf leafNoDigest = .error .hashMismatch :=
  C2_no_digest_still_checked leafNoDigest ⟨1, .unrecognized 9, none, none, 0, []⟩
    rfl rfl (by decide) rfl

/-- C3 counterexample: the 4-byte buffer `[1, 9, 0, 0]` is too short for
the declared 8-byte expiry and 2-byte extensions-length fields, yet leaf
decoding succeeds (the multi-byte reads silently clamp and
`int.from_bytes` of the short reads yields 0) instead of failing with a
truncation error. -/
theorem C3_counterexample :
    parse_at_leaf [1, 9, 0, 0] = .ok ⟨1, .unrecognized 9, none, none, 0, []⟩ := rfl

/-- C3 (amended): reads of a single header byte at end of input fail
with an index error, and these (together with text-decode failures) are
the only decode failures; the multi-byte reads (description, digest,
expiry, extensions length, extension payloads) silently clamp to the
available bytes, so a buffer ending right after the digest-length field
decodes successfully with expiry 0 and no extensions. -/
theorem C3_truncation_behavior :
    (∀ raw e, parse_at_leaf raw = .error e → e = .indexError ∨ e = .unicodeDecodeError) ∧
    (∀ v k, parse_at_leaf [v, k, 0, 0] = .ok ⟨v, AtLogDataType.ofNat k, none, none, 0, []⟩) :=
  ⟨parse_at_leaf_error, fun v k => rfl⟩

/-- Witness for C3's amended theorem: the empty buffer fails with an
index error, and the concrete truncated buffer `[2, 9, 0, 0]` decodes
successfully. -/
theorem C3_truncation_behavior_witness :
    (PyErr.indexError = .indexError ∨ PyErr.indexError = .unicodeDecodeError) ∧
    parse_at_leaf [2, 9, 0, 0] = .ok ⟨2, AtLogDataType.ofNat 9, none, none, 0, []⟩ :=
  ⟨C3_truncation_behavior.1 [] .indexError rfl, C3_truncation_behavior.2 2 9⟩

/-- C4 counterexample: a leaf whose extensions region (declared length
3) holds one extension claiming a 5-byte payload — overrunning the
region by 2 bytes — decodes successfully with the payload silently
truncated to the empty string, instead of failing with a region-overrun
error. -/
theorem C4_counterexample :
    parse_at_leaf [1, 9, 0, 0, 0, 0, 0, 0, 0, 0, 0, 0, 0, 3, 7, 0, 5] =
      .ok ⟨1, .unrecognized 9, none, none, 0, [⟨7, []⟩]⟩ := rfl

/-- C4 (amended): for well-formed input the extension-list loop
consumes exactly the declared region length (any number of extensions)
and returns them in order; but an extension whose declared payload
length overruns the region boundary does not fail — its payload read is
clamped to the bytes remaining in the region and decoding succeeds with
the truncated payload. -/
theorem C4_extension_clamping :
    (∀ es, (∀ e ∈ es, e.data.length < 65536) →
      parseExtensionsRegion (encodeExts es) (encodeExts es).length = .ok es) ∧
    (∀ t hi lo d, d.length < hi * 256 + lo →
      parseExtensionsRegion (t :: hi :: lo :: d) (3 + d.length) = .ok [⟨t, d⟩]) := by
  constructor
  · intro es hv
    exact parseExtLoop_encode es ((encodeExts es).length + 1) 0 (encodeExts es).length hv
      (by omega) (by omega)
  · intro t hi lo d hd
    have hesz : fromBytesBE [hi, lo] = hi * 256 + lo := by
      unfold fromBytesBE
      simp only [List.foldl]
      ring
    have htk : (hi :: lo :: d).take 2 = [hi, lo] := rfl
    have hdr : (hi :: lo :: d).drop 2 = d := rfl
    have htkd : d.take (fromBytesBE [hi, lo]) = d :=
      List.take_of_length_le (by rw [hesz]; omega)
    have hdrd : d.drop (fromBytesBE [hi, lo]) = [] :=
      List.drop_eq_nil_of_le (by rw [hesz]; omega)
    unfold parseExtensionsRegion
    simp only [parseExtLoop, htk, hdr, htkd, hdrd]
    rw [if_pos (by omega)]
    rw [parseExtLoop_done _ _ _ _ (by simp [hesz])]

/-- Witness for C4's amended theorem: a well-formed single-extension
region round-trips, and a region `[7, 0, 5]` whose extension claims 5
payload bytes with 0 remaining decodes to the truncated extension. -/
theorem C4_extension_clamping_witness :
    parseExtensionsRegion (encodeExts [⟨7, [1, 2]⟩]) (encodeExts [⟨7, [1, 2]⟩]).length =
      .ok [⟨7, [1, 2]⟩] ∧
    parseExtensionsRegion [7, 0, 5] 3 = .ok [⟨7, []⟩] :=
  ⟨C4_extension_clamping.1 [⟨7, [1, 2]⟩] (by decide),
   C4_extension_clamping.2 7 0 5 [] (by decide)⟩

/-- C5: for every leaf whose data-kind byte is not one of the
enumerated known kinds, leaf decoding does not fail because of it — the
decode result is exactly the result for a known kind with the type
field replaced by the "unrecognized kind" variant carrying the raw
byte. -/
theorem C5_unknown_kind_preserved (v k : Nat) (rest : List Nat)
    (hk : isKnownKind k = false) :
    parse_at_leaf (v :: k :: rest) =
      Except.map (fun l => { l with type := AtLogDataType.unrecognized k })
        (parse_at_leaf (v :: RELEASE_TAG :: rest)) := by
  have hofk : AtLogDataType.ofNat k = .unrecognized k := by
    simp only [isKnownKind, beq_eq_false_iff_ne, ne_eq] at hk
    simp [AtLogDataType.ofNat, hk]
  simp only [parse_at_leaf, hofk]
  cases rest with
  | nil => rfl
  | cons description_size r3 =>
    simp only
    split
    · cases hr4 : r3.drop description_size with
      | nil => rfl
      | cons hash_size r5 =>
        simp only
        cases hext : parseExtensionsRegion
            ((((r5.drop hash_size).drop 8).drop 2).take
              (fromBytesBE (((r5.drop hash_size).drop 8).take 2)))
            (fromBytesBE (((r5.drop hash_size).drop 8).take 2)) with
        | error e => simp [hext, Except.map]
        | ok exts => simp [hext, Except.map, AtLogDataType.ofNat, RELEASE_TAG]
    · rfl

/-- Witness for C5 at the unknown kind byte 9. -/
theorem C5_unknown_kind_preserved_witness :
    parse_at_leaf [1, 9, 0, 0] =
      Except.map (fun l => { l with type := AtLogDataType.unrecognized 9 })
        (parse_at_leaf [1, RELEASE_TAG, 0, 0]) :=
  C5_unknown_kind_preserved 1 9 [0, 0] rfl

/-- C6: ticket-bundle decoding fails (with the failed version
assertion) for every bundle whose first INTEGER element has a value
other than 1 — whatever the rest of the SEQUENCE or any trailing bytes
hold — and succeeds, recovering the tickets, when the version equals
1. -/
theorem C6_version_check :
    (∀ (verBytes body trailing : List Nat) (w : Int),
      decodeInteger verBytes = .ok w → w ≠ 1 →
      verBytes.length < 2 ^ 64 →
      (encodeTLV 2 verBytes ++ body).length < 2 ^ 64 →
      parseTicketBundle (encodeTLV 48 (encodeTLV 2 verBytes ++ body) ++ trailing) =
        .error .assertionFailed) ∧
    (∀ ap cts, ap.length < 2 ^ 64 → (∀ ct ∈ cts, ct.length < 2 ^ 64) →
      (encodeSetBody cts).length < 2 ^ 64 →
      (encodeTLV 2 [1] ++ encodeTLV 4 ap ++ encodeTLV 49 (encodeSetBody cts)).length < 2 ^ 64 →
      parseTicketBundle (encodeBundleWithTrailing ap cts []) = .ok (ap, cts)) := by
  constructor
  · intro verBytes body trailing w hw hw1 hvb hbody
    simp only [parseTicketBundle]
    rw [peekAssertEnter_seq _ _ hbody]
    simp only [List.append_assoc]
    rw [asn1Read_integer verBytes body w hvb hw]
    simp [hw1]
  · intro ap cts hap hcts hset hseq
    apply parseTicketBundle_encode ap cts [] hap hcts hset
    rwa [List.append_nil]

/-- Witness for C6: format version 2 fails; format version 1 with one
primary and three secondary tickets succeeds, preserving order. -/
theorem C6_version_check_witness :
    parseTicketBundle (encodeTLV 48 (encodeTLV 2 [2] ++
      (encodeTLV 4 [170] ++ encodeTLV 49 [])) ++ []) = .error .assertionFailed ∧
    parseTicketBundle (encodeBundleWithTrailing [170] [[5], [6], [7]] []) =
      .ok ([170], [[5], [6], [7]]) :=
  ⟨C6_version_check.1 [2] (encodeTLV 4 [170] ++ encodeTLV 49 []) [] 2 rfl (by decide)
      (by decide) (by decide),
   C6_version_check.2 [170] [[5], [6], [7]] (by decide) (by decide) (by decide) (by decide)⟩

/-- C7 counterexample: a DER bundle with one unconsumed byte (`0xFF`)
left inside the outer SEQUENCE after the SET of secondary tickets has
been fully consumed.  The claim says decoding fails with a
trailing-data error; instead it succeeds and the byte is ignored. -/
theorem C7_counterexample :
    parseTicketBundle [48, 9, 2, 1, 1, 4, 1, 170, 49, 0, 255] = .ok ([170], []) := rfl

/-- C7 (amended): unconsumed bytes left inside the outer SEQUENCE after
the SET of secondary tickets are never examined: ticket-bundle decoding
succeeds and returns the tickets, ignoring the trailing bytes (there is
no trailing-data check; the format is effectively extensible). -/
theorem C7_trailing_ignored (ap : List Nat) (cts : List (List Nat)) (trailing : List Nat)
    (hne : trailing ≠ [])
    (hap : ap.length < 2 ^ 64) (hcts : ∀ ct ∈ cts, ct.length < 2 ^ 64)
    (hset : (encodeSetBody cts).length < 2 ^ 64)
    (hseq : (encodeTLV 2 [1] ++ encodeTLV 4 ap ++ encodeTLV 49 (encodeSetBody cts) ++
      trailing).length < 2 ^ 64) :
    parseTicketBundle (encodeBundleWithTrailing ap cts trailing) = .ok (ap, cts) :=
  parseTicketBundle_encode ap cts trailing hap hcts hset hseq

/-- Witness for C7's amended theorem: trailing byte `0xFF` inside the
SEQUENCE, decode succeeds. -/
theorem C7_trailing_ignored_witness :
    parseTicketBundle (encodeBundleWithTrailing [170] [] [255]) = .ok ([170], []) :=
  C7_trailing_ignored [170] [] [255] (by decide) (by decide) (by decide) (by decide) (by decide)

/-- C9: an `ATL_NODE` entry that decodes successfully and passes the
digest stage but whose data-kind is not the release kind is skipped
without being reported as a failure: it produces no `Release` and no
error, and the remaining entries of the batch are still processed. -/
theorem C9_skip_non_release (leaf : LogLeaf) (at_leaf : ATLeaf) (rest : List LogLeaf)
    (h1 : leaf.node_type = ATL_NODE)
    (h2 : parse_at_leaf leaf.mutation = .ok at_leaf)
    (h3 : leaf.raw_data = [] ∨ some (sha256 leaf.raw_data) = at_leaf.hash)
    (h4 : at_leaf.type ≠ AtLogDataType.release) :
    processLeaf leaf = .ok none ∧
    get_releases_from_leaves (leaf :: rest) = get_releases_from_leaves rest := by
  have hp : processLeaf leaf = .ok none := by
    simp only [processLeaf, h1, if_pos, h2]
    have hcond : ¬(¬leaf.raw_data.isEmpty = true ∧
        some (sha256 leaf.raw_data) ≠ at_leaf.hash) := by
      rcases h3 with h | h
      · simp [h]
      · simp [h]
    rw [if_neg hcond, if_neg h4]
  exact ⟨hp, by simp [get_releases_from_leaves, hp]⟩

/-- Witness for C9 at the concrete non-release leaf `leafOtherKind`
(kind byte 9) with a singleton batch. -/
theorem C9_skip_non_release_witness :
    processLeaf leafOtherKind = .ok none ∧
    get_releases_from_leaves [leafOtherKind] = get_releases_from_leaves [] :=
  C9_skip_non_release leafOtherKind ⟨1, .unrecognized 9, none, none, 0, []⟩ []
    rfl rfl (Or.inl rfl) (by decide)

/-- C10: release assembly requires the raw-data (ticket) bytes to be
present and non-empty — for every entry whose raw-data bytes are absent
or empty, `Release.__init__` fails on `assert self.tickets_raw` rather
than producing a `Release` with empty ticket bytes. -/
theorem C10_requires_raw_data (log_leaf : LogLeaf) (at_leaf : ATLeaf)
    (h : log_leaf.raw_data = []) :
    Release.init log_leaf at_leaf = .error .assertionFailed := by
  simp [Release.init, h]

/-- Witness for C10 at the concrete release-kind leaf with empty raw
data. -/
theorem C10_requires_raw_data_witness :
    Release.init leafReleaseNoRaw ⟨1, .release, none, none, 0, []⟩ =
      .error .assertionFailed :=
  C10_requires_raw_data leafReleaseNoRaw ⟨1, .release, none, none, 0, []⟩ rfl
